import Mathlib

/-!
Verification development for the android-app-search repository.

The Python source under scrutiny is embedded shallowly:
pure functions become Lean functions, the stateful rate-limit guard
becomes explicit state passing over a clock value, and the host API is
an oracle parameter. Machine integers are modelled with Int/Nat
(Python integers are unbounded, so no wrap-around is needed).
-/

namespace AppSearch

/-! ## Python string primitives

Embeddings of the pieces of Python string semantics that the source
relies on: `str.strip` whitespace, `int(...)` on decimal strings, and
`str.split(',')`. Characters are classified through their code points,
matching the byte-oriented checks CPython performs on ASCII input. -/

/-- ASCII whitespace removed by Python `str.strip()`. -/
def isPySpace (c : Char) : Bool :=
  c.toNat == 32 || c.toNat == 9 || c.toNat == 10 ||
  c.toNat == 13 || c.toNat == 11 || c.toNat == 12

/-- Decimal digit characters `0`-`9`. -/
def isDigitChar (c : Char) : Bool :=
  48 ≤ c.toNat && c.toNat ≤ 57

/-- Numeric value of a digit character. -/
def digitVal (c : Char) : Nat := c.toNat - 48

/-- Python `str.strip()`: drop ASCII whitespace from both ends. -/
def pyStrip (cs : List Char) : List Char :=
  ((cs.dropWhile isPySpace).reverse.dropWhile isPySpace).reverse

/-- Value of a nonempty all-digit character list; `none` when empty or
when any character is not a decimal digit (Python `int` raises). -/
def pyIntDigits (cs : List Char) : Option Nat :=
  if cs.isEmpty then none
  else if cs.all isDigitChar then
    some (cs.foldl (fun a c => a * 10 + digitVal c) 0)
  else none

/-- Sign handling of Python `int(s)` after stripping: an optional
leading `+` or `-` followed by digits. -/
def pyIntOfStripped : List Char → Option Int
  | [] => none
  | c :: rest =>
    if c == '+' then (pyIntDigits rest).map (fun n => (n : Int))
    else if c == '-' then (pyIntDigits rest).map (fun n => -(n : Int))
    else (pyIntDigits (c :: rest)).map (fun n => (n : Int))

/-- Python `int(s)` on a decimal string: strip whitespace, optional
sign, then digits; `none` models the `ValueError` raised otherwise. -/
def pyInt (s : String) : Option Int :=
  pyIntOfStripped (pyStrip s.data)

/-- Decimal digit character for a value below ten. -/
def digitToChar (d : Nat) : Char :=
  match d with
  | 0 => '0' | 1 => '1' | 2 => '2' | 3 => '3' | 4 => '4'
  | 5 => '5' | 6 => '6' | 7 => '7' | 8 => '8' | _ => '9'

/-- Big-endian decimal digits of `n`, with explicit fuel so that the
definition is structurally recursive and kernel-evaluable. -/
def natDigitsAux : Nat → Nat → List Char
  | 0, _ => []
  | _ + 1, 0 => []
  | fuel + 1, n + 1 =>
    natDigitsAux fuel ((n + 1) / 10) ++ [digitToChar ((n + 1) % 10)]

/-- Decimal representation of a natural number. -/
def natRepr (n : Nat) : String :=
  if n = 0 then "0" else String.mk (natDigitsAux n n)

/-! ## urllib embedding

`Repo._parse_num_pages` runs `parse_qs(urlparse(url).query)`. The
query component is the text after the first `?` and before the first
`#`. `parse_qs` (Python 3.6 era) splits fields on `&` and `;`, skips
fields without `=` and fields with an empty value, and percent-decodes
names and values with `unquote_plus`. Multi-byte UTF-8 percent
sequences are out of modelled scope; each `%XX` pair decodes to the
character with that code point. -/

/-- Characters before the first occurrence of `stop`. -/
def takeBeforeChar (stop : Char) (cs : List Char) : List Char :=
  cs.takeWhile (fun c => c != stop)

/-- Characters strictly after the first occurrence of `stop` (empty
when `stop` does not occur). -/
def dropThroughChar (stop : Char) (cs : List Char) : List Char :=
  match cs.dropWhile (fun c => c != stop) with
  | [] => []
  | _ :: rest => rest

/-- Query component of a URL, as in `urlparse(url).query`. -/
def urlQuery (url : String) : List Char :=
  dropThroughChar '?' (takeBeforeChar '#' url.data)

/-- Query-string field separators of Python 3.6 `parse_qsl`. -/
def isQsSep (c : Char) : Bool := c == '&' || c == ';'

/-- Split a query string into fields at separators. -/
def splitFieldsAux : List Char → List Char → List (List Char)
  | acc, [] => [acc.reverse]
  | acc, c :: rest =>
    if isQsSep c then acc.reverse :: splitFieldsAux [] rest
    else splitFieldsAux (c :: acc) rest

/-- Split a field at its first `=`; `none` when there is no `=`. -/
def splitFirstEqAux : List Char → List Char → Option (List Char × List Char)
  | _, [] => none
  | acc, c :: rest =>
    if c == '=' then some (acc.reverse, rest)
    else splitFirstEqAux (c :: acc) rest

/-- Value of a hexadecimal digit character. -/
def hexVal (c : Char) : Option Nat :=
  if 48 ≤ c.toNat && c.toNat ≤ 57 then some (c.toNat - 48)
  else if 97 ≤ c.toNat && c.toNat ≤ 102 then some (c.toNat - 87)
  else if 65 ≤ c.toNat && c.toNat ≤ 70 then some (c.toNat - 55)
  else none

/-- Python `unquote_plus`, fuel-recursive: `+` becomes a space and
`%XX` pairs decode; malformed percent escapes are kept literally.
The fuel-exhausted case returns the input unchanged; `unquotePlus`
supplies the input length, which always suffices (every step consumes
at least one character per fuel unit). -/
def unquotePlusGo : Nat → List Char → List Char
  | 0, l => l
  | _ + 1, [] => []
  | fuel + 1, c :: rest =>
    if c == '+' then ' ' :: unquotePlusGo fuel rest
    else if c == '%' then
      match rest with
      | h1 :: h2 :: rest2 =>
        match hexVal h1, hexVal h2 with
        | some a, some b => Char.ofNat (a * 16 + b) :: unquotePlusGo fuel rest2
        | _, _ => c :: unquotePlusGo fuel rest
      | _ => c :: unquotePlusGo fuel rest
    else c :: unquotePlusGo fuel rest

/-- Python `unquote_plus` on a character list. -/
def unquotePlus (l : List Char) : List Char :=
  unquotePlusGo l.length l

/-- Python `parse_qsl` over a query string with default options:
fields without `=` or with empty values are skipped. -/
def parse_qsl (query : List Char) : List (String × String) :=
  (splitFieldsAux [] query).filterMap fun field =>
    match splitFirstEqAux [] field with
    | none => none
    | some (n, v) =>
      if v.isEmpty then none
      else some (String.mk (unquotePlus n), String.mk (unquotePlus v))

/-- The list of values `parse_qs` records for the `page` key, in
order of appearance. -/
def pageValues (url : String) : List String :=
  (parse_qsl (urlQuery url)).filterMap
    (fun kv => if kv.1 == "page" then some kv.2 else none)

/-- `parse_qs(urlparse(url).query).get('page', ['1'])`: the values
recorded for the `page` key, with the default singleton. -/
def pageArgOf (url : String) : List String :=
  if (pageValues url).isEmpty then ["1"] else pageValues url

/-- `Repo._parse_num_pages` from src/util/github_repo.py. `none`
models the `ValueError` that `int(...)` raises on a value that is not
a decimal integer. -/
def parse_num_pages (url : String) : Option Int :=
  let page_arg := pageArgOf url
  if page_arg.length < 1 then some 1
  else pyInt (page_arg.headD "")

/-! ## src/util/ratelimited_github.py

`RateLimitedGitHub` keeps a `last_response` and a session. The clock
(`datetime.utcnow().timestamp()`) and `time.sleep` are modelled by an
explicit `now` field measured in POSIX seconds: sleeping for `w`
seconds advances `now` by `w`. The host is an oracle: the
`/rate_limit` endpoint is a function of the resource name, and the
session answers any URL with a response. Rate-limit quantities are
integers (the header strings are converted with `int(...)` in the
source; the model stores the converted values). A missing dictionary
entry corresponds to `none`, matching `dict.get` with its default. -/

/-- Rate-limit information as returned by headers or the endpoint:
`limit`, `remaining` and `reset` (POSIX seconds). -/
structure RateLimitInfo where
  limit : Option Int
  remaining : Option Int
  reset : Option Int

/-- The three `X-RateLimit-*` headers of a response; `none` when the
header is absent. -/
structure RateHeaders where
  limitHeader : Option Int
  remainingHeader : Option Int
  resetHeader : Option Int

/-- A host response, reduced to the parts the guard inspects. -/
structure HttpResponse where
  headers : RateHeaders

/-- Mutable state of a `RateLimitedGitHub` instance plus the clock. -/
structure ClientState where
  lastResponse : Option HttpResponse
  now : Int

/-- The host environment: the `/rate_limit` endpoint keyed by resource
name, and the session answering a URL at a time. -/
structure HostEnv where
  ratelimitEndpoint : String → RateLimitInfo
  respond : String → Int → HttpResponse

/-- `RateLimitedGitHub.CORE_RESOURCE`. -/
def coreResource : String := "core"

/-- `RateLimitedGitHub._has_response`. -/
def has_response (st : ClientState) : Bool :=
  st.lastResponse.isSome

/-- `RateLimitedGitHub._response_has_ratelimit_headers`: all three
rate-limit headers are present on the last response. -/
def response_has_ratelimit_headers (st : ClientState) : Bool :=
  match st.lastResponse with
  | none => false
  | some r =>
    r.headers.resetHeader.isSome && r.headers.limitHeader.isSome &&
    r.headers.remainingHeader.isSome

/-- `RateLimitedGitHub._get_ratelimit_from_headers`. -/
def get_ratelimit_from_headers (st : ClientState) : RateLimitInfo :=
  match st.lastResponse with
  | none => { limit := none, remaining := none, reset := none }
  | some r =>
    { limit := r.headers.limitHeader,
      remaining := r.headers.remainingHeader,
      reset := r.headers.resetHeader }

/-- The quota source `_wait_for_ratelimit` consults: the last-response
headers when all are present, otherwise the `/rate_limit` endpoint.
The source calls `self._get_ratelimit()` with its default argument, so
the endpoint is always queried for the core resource. -/
def consulted_ratelimit (env : HostEnv) (st : ClientState) : RateLimitInfo :=
  if has_response st && response_has_ratelimit_headers st then
    get_ratelimit_from_headers st
  else env.ratelimitEndpoint coreResource

/-- `RateLimitedGitHub._wait_for_ratelimit`: returns the new state and
the number of seconds slept (0 when no sleep happened). The
`resource` parameter is kept from the source signature; as in the
source it does not influence the consulted quota. -/
def wait_for_ratelimit (env : HostEnv) (st : ClientState) (_resource : String) :
    ClientState × Int :=
  let ratelimit := consulted_ratelimit env st
  if ratelimit.remaining.getD 0 < 1 then
    let reset := ratelimit.reset.getD 0
    let wait_time := reset - st.now + 1
    if 0 < wait_time then ({ st with now := st.now + wait_time }, wait_time)
    else (st, 0)
  else (st, 0)

/-- A session request issued to the host: which URL, at what time. -/
structure RequestEvent where
  url : String
  time : Int

/-- `RateLimitedGitHub._get`: wait for the rate limit, then perform
the session request; the response becomes the new `last_response`. -/
def rl_get (env : HostEnv) (st : ClientState) (url : String) :
    ClientState × RequestEvent :=
  let st1 := (wait_for_ratelimit env st coreResource).1
  ({ lastResponse := some (env.respond url st1.now), now := st1.now },
   { url := url, time := st1.now })

/-! ## src/util/github_repo.py: Repo.count_commits

`count_commits` fetches the first page of the commit listing, reads
the `last` pagination link of that response, and either stops (one
page) or fetches the last page directly. The paginated listing is an
environment: the first-page response and a function answering a URL
with a page response. Items are opaque (`Unit`); only their number
matters. The result pairs the computed count (`none` models the
exception `int(...)` would raise inside `_parse_num_pages`) with the
number of page requests issued. -/

/-- One page of the paginated commit listing, as the iterator sees it:
the parsed JSON items and the URL of the `last` pagination link when
the response carries one. -/
structure PageResponse where
  items : List Unit
  lastLink : Option String

/-- The paginated listing environment: page size (`per_page`), the
response to the initial request, and the response for a directly
fetched URL. -/
structure PaginatedEnv where
  perPage : Nat
  firstPage : PageResponse
  fetchUrl : String → PageResponse

/-- `Repo.count_commits`: the computed count and the number of page
requests issued. `links.get('last', {}).get('url', '')` yields `""`
when no `last` link is present. -/
def count_commits (env : PaginatedEnv) : Option Int × Nat :=
  let last_rel := match env.firstPage.lastLink with
    | some u => u
    | none => ""
  match parse_num_pages last_rel with
  | none => (none, 1)
  | some num_pages =>
    if num_pages == 1 then
      (some ((env.perPage : Int) * (num_pages - 1) +
        (env.firstPage.items.length : Int)), 1)
    else
      let last_page := env.fetchUrl last_rel
      (some ((env.perPage : Int) * (num_pages - 1) +
        (last_page.items.length : Int)), 2)

/-- Number of pages of an honestly paginated listing of `n` items with
page size `p`: at least one page, `⌈n / p⌉` otherwise. -/
def ceilPages (n p : Nat) : Nat :=
  if n = 0 then 1 else (n + p - 1) / p

/-- Number of items on page `i` (1-based) of an honestly paginated
listing of `n` items with page size `p`. -/
def pageItemCount (n p i : Nat) : Nat :=
  min p (n - p * (i - 1))

/-- The URL a host places in the `last` pagination link for page `k`. -/
def mkPageUrl (k : Nat) : String :=
  "https://api.test/commits?page=" ++ natRepr k

/-- Page response served for page `k` of an honest listing. Links of
directly fetched pages are not consulted by `count_commits`. -/
def honestPage (n p k : Nat) : PageResponse :=
  { items := List.replicate (pageItemCount n p k) (), lastLink := none }

/-- An honest paginated listing of `n` items with page size `p`: the
first page carries a `last` link exactly when more than one page
exists, and a fetched URL serves the page its `page` parameter names. -/
def honestEnv (n p : Nat) : PaginatedEnv :=
  { perPage := p,
    firstPage :=
      { items := List.replicate (pageItemCount n p 1) (),
        lastLink :=
          if 1 < ceilPages n p then some (mkPageUrl (ceilPages n p))
          else none },
    fetchUrl := fun u =>
      match parse_num_pages u with
      | some k => honestPage n p k.toNat
      | none => honestPage n p 1 }

/-! ## src/util/github_repo.py: RepoVerifier

`FULL_NAME_PATTERN` is `^([a-z0-9-]+)\/([a-z0-9_\.-]+)$` compiled with
`re.I`. Neither character class contains `/`, so the pattern matches
exactly the strings with a single `/` whose two sides are nonempty
runs over the respective classes. Python `$` (as opposed to `\Z`)
also matches just before a newline that ends the string, so a single
trailing newline is tolerated; the embedding strips it before the
anchored match, exactly reproducing `re.match` on this pattern. -/

/-- Characters of the owner class `[a-z0-9-]` under `re.I`. -/
def isOwnerChar (c : Char) : Bool :=
  (97 ≤ c.toNat && c.toNat ≤ 122) || (65 ≤ c.toNat && c.toNat ≤ 90) ||
  (48 ≤ c.toNat && c.toNat ≤ 57) || c == '-'

/-- Characters of the name class `[a-z0-9_\.-]` under `re.I`. -/
def isNameChar (c : Char) : Bool :=
  isOwnerChar c || c == '_' || c == '.'

/-- Split a character list at every `/`. -/
def splitSlashAux : List Char → List Char → List (List Char)
  | acc, [] => [acc.reverse]
  | acc, c :: rest =>
    if c == '/' then acc.reverse :: splitSlashAux [] rest
    else splitSlashAux (c :: acc) rest

/-- Anchored match of `([a-z0-9-]+)/([a-z0-9_.-]+)` (case-insensitive)
against an entire character list, returning the two groups. -/
def matchFullName (cs : List Char) : Option (List Char × List Char) :=
  match splitSlashAux [] cs with
  | [o, n] =>
    if !o.isEmpty && o.all isOwnerChar && !n.isEmpty && n.all isNameChar
    then some (o, n) else none
  | _ => none

/-- Drop a single final newline, as Python `$` allows one before the
end of the string. -/
def stripFinalNewline (cs : List Char) : List Char :=
  if cs.getLast? == some '\n' then cs.dropLast else cs

/-- `RepoVerifier._full_name_to_parts`: owner and repository name, or
the `ValueError` message. -/
def full_name_to_parts (full_name : String) :
    Except String (String × String) :=
  match matchFullName (stripFinalNewline full_name.data) with
  | some (o, n) => .ok (String.mk o, String.mk n)
  | none =>
    .error (full_name ++ " is not a valid name of a Github repository")

/-- `RepoVerifier.get_repo`, over a host oracle that returns the
repository for an owner and name, or `none` when the host reports
that it does not exist (`self.repository` returns `None` on 404).
The wrapping `Repo(repo.to_json())` is the identity on the model. -/
def get_repo {α : Type} (host : String → String → Option α)
    (full_name : String) : Except String (Option α) :=
  match full_name_to_parts full_name with
  | .error e => .error e
  | .ok (owner, name) => .ok (host owner name)

/-- The identifier syntax as the spec states it: `owner/name` with
owner matching `[A-Za-z0-9-]+` and name matching `[A-Za-z0-9_.-]+`,
the whole string and nothing else. Stated from the spec words, for
comparison with the behaviour of `full_name_to_parts`. -/
def specValidFullName (s : String) : Bool :=
  match splitSlashAux [] s.data with
  | [o, n] => !o.isEmpty && o.all isOwnerChar && !n.isEmpty && n.all isNameChar
  | _ => false

/-! ## src/github_package_match.py

Parsed JSON is a tagged union; `RecursiveSearch` walks it and runs
`re.findall` with the pattern
`github\.com\/([A-Za-z0-9_-]*\/[A-Za-z0-9_-]*)` on every string node.
The path recorded for diagnostics does not influence the collected
matches and is omitted. Since `/` is not in the character class, the
pattern matches at a position exactly when the literal `github.com/`
is followed by a (possibly empty) run of class characters, then `/`,
then another run; greedy matching takes both runs maximal, and
`findall` scans left to right without overlap. -/

/-- A value parsed from JSON (`json.JSONDecoder` output). Numbers are
modelled as integers; no claim depends on float behaviour. -/
inductive Json where
  | null
  | bool (b : Bool)
  | num (n : Int)
  | str (s : String)
  | arr (items : List Json)
  | obj (fields : List (String × Json))

/-- Python truthiness of a parsed JSON value, as used by
`if package_details:`. -/
def jsonTruthy : Json → Bool
  | .null => false
  | .bool b => b
  | .num n => n != 0
  | .str s => !s.isEmpty
  | .arr items => !items.isEmpty
  | .obj fields => !fields.isEmpty

/-- Characters of the class `[A-Za-z0-9_-]` in the repo-link pattern. -/
def isLinkChar (c : Char) : Bool :=
  (65 ≤ c.toNat && c.toNat ≤ 90) || (97 ≤ c.toNat && c.toNat ≤ 122) ||
  (48 ≤ c.toNat && c.toNat ≤ 57) || c == '_' || c == '-'

/-- The literal part `github.com/` of the pattern. -/
def githubComSlash : List Char := "github.com/".data

/-- Does `ps` begin the list `cs`? -/
def startsWithList : List Char → List Char → Bool
  | [], _ => true
  | _ :: _, [] => false
  | p :: ps, c :: cs => p == c && startsWithList ps cs

/-- `re.findall` of the repo-link pattern: scan left to right; at a
position starting with `github.com/`, capture the maximal class run,
require `/`, capture the second maximal run, and resume after the
match; otherwise slide one character. Fuel bounds the recursion and
the input length is always sufficient. -/
def scanLinks : Nat → List Char → List String
  | 0, _ => []
  | _ + 1, [] => []
  | fuel + 1, c :: rest =>
    if startsWithList githubComSlash (c :: rest) then
      let after := (c :: rest).drop githubComSlash.length
      let owner := after.takeWhile isLinkChar
      match after.dropWhile isLinkChar with
      | '/' :: r2 =>
        String.mk (owner ++ '/' :: r2.takeWhile isLinkChar) ::
          scanLinks fuel (r2.dropWhile isLinkChar)
      | _ => scanLinks fuel rest
    else scanLinks fuel rest

/-- All pattern matches in a string, in order of occurrence. -/
def findLinkMatches (s : String) : List String :=
  scanLinks s.data.length s.data

mutual
/-- `RecursiveSearch.search`: matches collected over a JSON value in
traversal order. Numbers, booleans and null are ignored. -/
def searchJson : Json → List String
  | .null => []
  | .bool _ => []
  | .num _ => []
  | .str s => findLinkMatches s
  | .arr items => searchJsonList items
  | .obj fields => searchJsonFields fields
/-- `RecursiveSearch._search_list`. -/
def searchJsonList : List Json → List String
  | [] => []
  | j :: rest => searchJson j ++ searchJsonList rest
/-- `RecursiveSearch._search_dict`. -/
def searchJsonFields : List (String × Json) → List String
  | [] => []
  | (_, v) :: rest => searchJson v ++ searchJsonFields rest
end

/-- Python `str.split(',')`: split at every comma, keeping empty
parts; the result is never the empty list. -/
def pySplitCommaAux : List Char → List Char → List String
  | acc, [] => [String.mk acc.reverse]
  | acc, c :: rest =>
    if c == ',' then String.mk acc.reverse :: pySplitCommaAux [] rest
    else pySplitCommaAux (c :: acc) rest

/-- Python `str.split(',')` on a string. -/
def pySplitComma (s : String) : List String :=
  pySplitCommaAux [] s.data

/-- One row of the package-to-repositories CSV file. -/
structure CsvRow where
  package : String
  all_repos : String

/-- Insert into an association list with Python dict semantics: an
existing key is overwritten in place, a new key is appended. -/
def dictInsert {α : Type} (d : List (String × α)) (k : String) (v : α) :
    List (String × α) :=
  if d.any (fun kv => kv.1 == k) then
    d.map (fun kv => if kv.1 == k then (k, v) else kv)
  else d ++ [(k, v)]

/-- `parse_package_to_repos_file`: the dict comprehension
`{row['package']: row['all_repos'].split(',') for row in reader}`. -/
def parse_package_to_repos_file (rows : List CsvRow) :
    List (String × List String) :=
  rows.foldl (fun d row => dictInsert d row.package (pySplitComma row.all_repos)) []

/-- Classification a package receives in the loop body of
`match_play_and_github`, named after the statistics bucket each branch
increments. Only `verified` appends to `play_to_github`. -/
inductive PackageResult where
  | unknownPackage
  | detailsEmpty
  | linksLt1
  | noManifest (repo : String)
  | verified (repo : String)
  | linksGt1
deriving DecidableEq

/-- The per-package decision logic of `match_play_and_github`:
skip unknown packages, skip falsy details, collect the set of
extracted repo links, and accept exactly when that set is a singleton
whose element occurs in the known repositories of the package.
`repo_links` is a Python set; the model keeps the distinct matches
(`dedup`), whose cardinality and sole element (in the singleton case)
are what the source reads off the set. -/
def classify_package (packages : List (String × List String))
    (package_name : String) (package_details : Json) : PackageResult :=
  match packages.lookup package_name with
  | none => .unknownPackage
  | some known_repos =>
    if jsonTruthy package_details then
      let repo_links := (searchJson package_details).dedup
      if repo_links.length == 1 then
        let repo := repo_links.headD ""
        if known_repos.contains repo then .verified repo
        else .noManifest repo
      else if repo_links.length < 1 then .linksLt1
      else .linksGt1
    else .detailsEmpty

/-- The `(package_name, repository)` pair appended to
`play_to_github`, when the package is accepted. -/
def emitted_pair (packages : List (String × List String))
    (package_name : String) (package_details : Json) :
    Option (String × String) :=
  match classify_package packages package_name package_details with
  | .verified r => some (package_name, r)
  | _ => none

/-! ## The popularity tie-break cascade

Modelled from the spec: the `deduplicate(candidates)` cascade of the
MatchingEngine section is not present under src/ (no function of the
repository sources implements it); the definitions below follow the
spec words. Fetching repository metadata for a candidate is an
oracle; the second component of the result counts how many metadata
fetch calls were made against the host. -/

/-- Modelled from the spec: the repository metadata fields the cascade
reads — canonical name, fork flag, and the three popularity metrics. -/
structure RepoMeta where
  full_name : String
  fork : Bool
  forks_count : Int
  watchers_count : Int
  subscribers_count : Int

/-- Modelled from the spec: collapse duplicates by canonical
`full_name`, keeping the first occurrence of each name. -/
def collapseByFullName : List RepoMeta → List RepoMeta
  | [] => []
  | m :: rest =>
    m :: collapseByFullName (rest.filter (fun x => x.full_name != m.full_name))
termination_by l => l.length
decreasing_by
  simp only [List.length_cons]
  exact Nat.lt_succ_of_le (List.length_filter_le _ _)

/-- Modelled from the spec: retain only the repositories achieving the
maximum value of the metric. -/
def keepMetricMax (metric : RepoMeta → Int) (ms : List RepoMeta) :
    List RepoMeta :=
  match ms with
  | [] => []
  | m :: rest =>
    let best := rest.foldl (fun a x => max a (metric x)) (metric m)
    (m :: rest).filter (fun x => metric x == best)

/-- Modelled from the spec: run the metric cascade, stopping as soon
as exactly one repository remains (winner) or none remain (absent);
an irreducible tie after all metrics is absent. -/
def cascadeGo : List (RepoMeta → Int) → List RepoMeta → Option RepoMeta
  | _, [] => none
  | _, [m] => some m
  | [], _ :: _ :: _ => none
  | metric :: metrics, ms => cascadeGo metrics (keepMetricMax metric ms)

/-- Modelled from the spec: the fixed metric order
`[forks_count, watchers_count, subscribers_count]`. -/
def dedupMetrics : List (RepoMeta → Int) :=
  [fun m => m.forks_count, fun m => m.watchers_count,
   fun m => m.subscribers_count]

/-- Modelled from the spec: `deduplicate(candidates)`. A single
candidate string is returned with no API call; otherwise each
candidate is fetched (unresolvable ones dropped), duplicates are
collapsed by canonical name, forks are removed, and the metric
cascade decides. The second component counts metadata fetch calls. -/
def deduplicate (fetch : String → Option RepoMeta)
    (candidates : List String) : Option String × Nat :=
  if candidates.length == 1 then (candidates.head?, 0)
  else
    let metas := candidates.filterMap fetch
    let collapsed := collapseByFullName metas
    let nonForks := collapsed.filter (fun m => !m.fork)
    ((cascadeGo dedupMetrics nonForks).map (fun m => m.full_name),
     candidates.length)

/-! ## Concrete inputs used by counterexamples and witnesses -/

/-- The JSON value of the link-extraction test in the spec. -/
def exampleBlob : Json :=
  .obj [("a", .arr [.str "https://github.com/foo/bar", .str "plain text"]),
        ("b", .obj [("c", .str "see github.com/baz/qux/blob/master/README")])]

/-- A known-package table with two known repositories for `p`. -/
def cexPackagesTwo : List (String × List String) :=
  parse_package_to_repos_file [⟨"p", "a/b,a/c"⟩]

/-- Details whose extracted links are `a/b` (verified) and `x/y`
(unverified). -/
def cexDetailsExtra : Json :=
  .obj [("u", .str "github.com/a/b and github.com/x/y")]

/-- Details whose extracted links are exactly `a/b`. -/
def witDetailsSingle : Json :=
  .obj [("u", .str "see github.com/a/b")]

/-- A known-package table with a unique known repository for `p`. -/
def cexPackagesOne : List (String × List String) :=
  parse_package_to_repos_file [⟨"p", "a/b"⟩]

/-- Truthy details with no repository links at all. -/
def cexDetailsNoLinks : Json :=
  .obj [("u", .str "no repository links here")]

/-- A host whose quota endpoint reports an exhausted core quota
resetting at time 10. -/
def witHostEnv : HostEnv :=
  { ratelimitEndpoint := fun _ =>
      { limit := some 5000, remaining := some 0, reset := some 10 },
    respond := fun _ _ =>
      { headers :=
          { limitHeader := none, remainingHeader := none,
            resetHeader := none } } }

/-- A client with no previous response, at time 4. -/
def witClientState : ClientState :=
  { lastResponse := none, now := 4 }

/-! ## Helper lemmas -/

/-- Case analysis of `wait_for_ratelimit`: either the consulted quota
has remaining at least 1 and nothing happens, or it is exhausted and
the guard sleeps exactly to one second past the reset time (or not at
all when that time has already passed). -/
lemma wait_for_ratelimit_cases (env : HostEnv) (st : ClientState) (res : String) :
    (¬ (consulted_ratelimit env st).remaining.getD 0 < 1 ∧
      wait_for_ratelimit env st res = (st, 0)) ∨
    ((consulted_ratelimit env st).remaining.getD 0 < 1 ∧
      ((0 < (consulted_ratelimit env st).reset.getD 0 - st.now + 1 ∧
        wait_for_ratelimit env st res =
          ({ st with
              now := st.now +
                ((consulted_ratelimit env st).reset.getD 0 - st.now + 1) },
           (consulted_ratelimit env st).reset.getD 0 - st.now + 1)) ∨
       ((consulted_ratelimit env st).reset.getD 0 - st.now + 1 ≤ 0 ∧
        wait_for_ratelimit env st res = (st, 0)))) := by
  by_cases h : (consulted_ratelimit env st).remaining.getD 0 < 1
  · right
    refine ⟨h, ?_⟩
    by_cases h2 : 0 < (consulted_ratelimit env st).reset.getD 0 - st.now + 1
    · exact Or.inl ⟨h2, by simp [wait_for_ratelimit, h, h2]⟩
    · exact Or.inr ⟨by omega, by simp [wait_for_ratelimit, h, h2]⟩
  · exact Or.inl ⟨h, by simp [wait_for_ratelimit, h]⟩

/-! ## Claim theorems -/

/-- C1: whenever `_get` is called, `_wait_for_ratelimit` first
consults the freshest quota source (the last-response rate headers
when all are present, otherwise the quota endpoint) and blocks until
the quota has refilled before the session request executes: the
request time equals the post-wait clock, and at that time the
consulted quota either still had remaining at least 1 or its reset
timestamp has strictly passed (the quota has refilled). Hence no
guarded request is issued while the consulted remaining quota is
below 1 and the reset time has not passed. -/
theorem rlgithub_get_never_below_quota (env : HostEnv) (st : ClientState)
    (url : String) :
    consulted_ratelimit env st =
      (if has_response st && response_has_ratelimit_headers st then
        get_ratelimit_from_headers st
      else env.ratelimitEndpoint coreResource)
    ∧ ((rl_get env st url).2).time =
        ((wait_for_ratelimit env st coreResource).1).now
    ∧ (1 ≤ (consulted_ratelimit env st).remaining.getD 0
       ∨ (consulted_ratelimit env st).reset.getD 0 + 1 ≤
          ((rl_get env st url).2).time) := by
  refine ⟨rfl, rfl, ?_⟩
  have hev : ((rl_get env st url).2).time =
      ((wait_for_ratelimit env st coreResource).1).now := rfl
  rcases wait_for_ratelimit_cases env st coreResource with
    ⟨h, he⟩ | ⟨h, ⟨h2, he⟩ | ⟨h2, he⟩⟩
  · left; omega
  · right
    rw [hev, he]
    show (consulted_ratelimit env st).reset.getD 0 + 1 ≤
      st.now + ((consulted_ratelimit env st).reset.getD 0 - st.now + 1)
    omega
  · right
    rw [hev, he]
    show (consulted_ratelimit env st).reset.getD 0 + 1 ≤ st.now
    omega

/-- C5: the popularity tie-break cascade over a single candidate
string returns that candidate and makes zero metadata fetch calls. -/
theorem deduplicate_single_candidate_no_fetch
    (fetch : String → Option RepoMeta) (c : String) :
    deduplicate fetch [c] = (some c, 0) := rfl

/-- C7: when the guard decides a wait may be needed (consulted
remaining below 1), the slept duration is `reset − now + 1` clamped at
0 — never negative — and when `reset − now + 1 ≤ 0` no sleep happens
and the state is unchanged, so the request proceeds immediately. -/
theorem wait_duration_formula (env : HostEnv) (st : ClientState)
    (resource : String)
    (h : (consulted_ratelimit env st).remaining.getD 0 < 1) :
    (wait_for_ratelimit env st resource).2 =
      max ((consulted_ratelimit env st).reset.getD 0 - st.now + 1) 0
    ∧ 0 ≤ (wait_for_ratelimit env st resource).2
    ∧ ((consulted_ratelimit env st).reset.getD 0 - st.now + 1 ≤ 0 →
        wait_for_ratelimit env st resource = (st, 0)) := by
  rcases wait_for_ratelimit_cases env st resource with
    ⟨h1, _⟩ | ⟨_, ⟨h2, he⟩ | ⟨h2, he⟩⟩
  · exact absurd h h1
  · rw [he]
    refine ⟨(max_eq_left (by omega)).symm, by omega, fun h3 => absurd h3 (by omega)⟩
  · rw [he]
    exact ⟨(max_eq_right (by omega)).symm, le_refl 0, fun _ => rfl⟩

/-- C7 witness: at a concrete exhausted quota with reset 10 and clock
4, the guard sleeps 7 seconds. -/
theorem wait_duration_formula_witness :
    (wait_for_ratelimit witHostEnv witClientState "core").2 =
      max ((consulted_ratelimit witHostEnv witClientState).reset.getD 0 -
        witClientState.now + 1) 0
    ∧ 0 ≤ (wait_for_ratelimit witHostEnv witClientState "core").2
    ∧ ((consulted_ratelimit witHostEnv witClientState).reset.getD 0 -
        witClientState.now + 1 ≤ 0 →
        wait_for_ratelimit witHostEnv witClientState "core" =
          (witClientState, 0)) :=
  wait_duration_formula witHostEnv witClientState "core" (by decide)

/-- C9: the link extractor over the spec example JSON yields exactly
the set of identifiers foo/bar and baz/qux, in traversal order, and
number, boolean and null nodes contribute no matches. -/
theorem link_extraction_example_exact :
    (searchJson exampleBlob).toFinset = {"foo/bar", "baz/qux"}
    ∧ (searchJson exampleBlob).dedup = ["foo/bar", "baz/qux"]
    ∧ (∀ n : Int, searchJson (.num n) = [])
    ∧ (∀ b : Bool, searchJson (.bool b) = [])
    ∧ searchJson .null = [] :=
  ⟨by decide, by decide, fun _ => rfl, fun _ => rfl, rfl⟩

/-- C3 counterexample: for the known package `p` with
`known_repos = [a/b, a/c]` and extracted links `{a/b, x/y}` — so that
exactly one extracted link is also known — the code classifies the
package into the more-than-one-link bucket and emits nothing, not the
claimed Valid outcome emitting `a/b`. -/
theorem match_verified_extra_links_cex :
    (searchJson cexDetailsExtra).dedup = ["a/b", "x/y"]
    ∧ ((searchJson cexDetailsExtra).dedup.filter
        (fun r => ["a/b", "a/c"].contains r)) = ["a/b"]
    ∧ classify_package cexPackagesTwo "p" cexDetailsExtra = .linksGt1
    ∧ classify_package cexPackagesTwo "p" cexDetailsExtra ≠ .verified "a/b"
    ∧ emitted_pair cexPackagesTwo "p" cexDetailsExtra = none := by
  refine ⟨by decide, by decide, by decide, by decide, by decide⟩

/-- C3 as amended: for every known package, when the distinct
extracted links are exactly the singleton `[r]` and `r` is among the
known repositories, the package is accepted and `r` is emitted — with
no uniqueness requirement on `known_repos`; the spec instance
`known_repos = [a/b, a/c]`, extracted `{a/b}` emits `a/b`. When
additional (even unverified) links are extracted the code instead
counts the package in the more-than-one-link bucket and emits
nothing. -/
theorem match_single_verified_link_emits
    (packages : List (String × List String)) (name : String) (d : Json)
    (known : List String) (r : String)
    (hk : packages.lookup name = some known)
    (ht : jsonTruthy d = true)
    (he : (searchJson d).dedup = [r])
    (hr : known.contains r = true) :
    classify_package packages name d = .verified r
    ∧ emitted_pair packages name d = some (name, r) := by
  have hc : classify_package packages name d = .verified r := by
    unfold classify_package
    rw [hk]
    simp [ht, he]
    simpa using hr
  exact ⟨hc, by unfold emitted_pair; rw [hc]⟩

/-- C3 witness: the spec instance, with two known repositories and a
single verified extracted link. -/
theorem match_single_verified_link_emits_witness :
    classify_package cexPackagesTwo "p" witDetailsSingle = .verified "a/b"
    ∧ emitted_pair cexPackagesTwo "p" witDetailsSingle = some ("p", "a/b") :=
  match_single_verified_link_emits cexPackagesTwo "p" witDetailsSingle
    ["a/b", "a/c"] "a/b" (by decide) (by decide) (by decide) (by decide)

/-- C4 counterexample: for the known package `p` with the unique
`known_repos = [a/b]` and truthy details with no extracted links, the
code classifies the package into the fewer-than-one-link bucket and
emits nothing — not the claimed UniqueRepo outcome emitting `a/b`. -/
theorem match_unique_no_links_cex :
    cexPackagesOne.lookup "p" = some ["a/b"]
    ∧ (searchJson cexDetailsNoLinks).dedup = []
    ∧ jsonTruthy cexDetailsNoLinks = true
    ∧ classify_package cexPackagesOne "p" cexDetailsNoLinks = .linksLt1
    ∧ classify_package cexPackagesOne "p" cexDetailsNoLinks ≠ .verified "a/b"
    ∧ emitted_pair cexPackagesOne "p" cexDetailsNoLinks = none := by
  refine ⟨by decide, by decide, by decide, by decide, by decide, by decide⟩

/-- C4 as amended: a known package whose truthy metadata yields no
extracted links is always classified into the fewer-than-one-link
bucket with nothing emitted, regardless of whether its known
repository is unique — the code never consults uniqueness of
`known_repos` and has no UniqueRepo outcome. -/
theorem match_no_links_emits_nothing
    (packages : List (String × List String)) (name : String) (d : Json)
    (known : List String)
    (hk : packages.lookup name = some known)
    (ht : jsonTruthy d = true)
    (he : (searchJson d).dedup = []) :
    classify_package packages name d = .linksLt1
    ∧ emitted_pair packages name d = none := by
  have hc : classify_package packages name d = .linksLt1 := by
    unfold classify_package
    rw [hk]
    simp [ht, he]
  exact ⟨hc, by unfold emitted_pair; rw [hc]⟩

/-- C4 witness: the spec instance, with a unique known repository and
no extracted links. -/
theorem match_no_links_emits_nothing_witness :
    classify_package cexPackagesOne "p" cexDetailsNoLinks = .linksLt1
    ∧ emitted_pair cexPackagesOne "p" cexDetailsNoLinks = none :=
  match_no_links_emits_nothing cexPackagesOne "p" cexDetailsNoLinks
    ["a/b"] (by decide) (by decide) (by decide)

/-- `str.split(',')` never returns the empty list. -/
lemma pySplitCommaAux_ne_nil :
    ∀ (l acc : List Char), pySplitCommaAux acc l ≠ [] := by
  intro l
  induction l with
  | nil => intro acc; simp [pySplitCommaAux]
  | cons c t ih =>
    intro acc
    by_cases h : (c == ',') = true
    · simp [pySplitCommaAux, h]
    · simp only [pySplitCommaAux, h]
      simp only [Bool.false_eq_true, if_false]
      exact ih _

/-- `dictInsert` preserves a property of all stored values when the
inserted value has it. -/
lemma dictInsert_val_mem {α : Type} (P : α → Prop)
    (d : List (String × α)) (k : String) (v : α)
    (hd : ∀ kv ∈ d, P kv.2) (hv : P v) :
    ∀ kv ∈ dictInsert d k v, P kv.2 := by
  intro kv hkv
  unfold dictInsert at hkv
  split at hkv
  · rcases List.mem_map.mp hkv with ⟨kv0, hkv0, hmap⟩
    by_cases h : (kv0.1 == k) = true
    · rw [if_pos h] at hmap
      rw [← hmap]
      exact hv
    · rw [if_neg h] at hmap
      rw [← hmap]
      exact hd _ hkv0
  · rcases List.mem_append.mp hkv with h | h
    · exact hd _ h
    · simp only [List.mem_singleton] at h
      rw [h]
      exact hv

/-- Every value stored by `parse_package_to_repos_file` is nonempty. -/
lemma parse_package_vals (rows : List CsvRow) :
    ∀ kv ∈ parse_package_to_repos_file rows, 1 ≤ kv.2.length := by
  suffices h : ∀ (rows : List CsvRow) (d : List (String × List String)),
      (∀ kv ∈ d, 1 ≤ kv.2.length) →
      ∀ kv ∈ rows.foldl
        (fun d row => dictInsert d row.package (pySplitComma row.all_repos)) d,
        1 ≤ kv.2.length by
    exact h rows [] (by simp)
  intro rows
  induction rows with
  | nil => intro d hd; simpa using hd
  | cons r rs ih =>
    intro d hd
    simp only [List.foldl_cons]
    refine ih _ (dictInsert_val_mem (fun v => 1 ≤ v.length) d r.package _ hd ?_)
    have hne := pySplitCommaAux_ne_nil r.all_repos.data []
    exact List.length_pos.mpr hne

/-- A successful association-list lookup comes from a member pair. -/
lemma lookup_mem {α : Type} (k : String) (v : α) :
    ∀ d : List (String × α), d.lookup k = some v → (k, v) ∈ d := by
  intro d
  induction d with
  | nil => intro h; simp [List.lookup] at h
  | cons kv rest ih =>
    intro h
    obtain ⟨k1, v1⟩ := kv
    rw [List.lookup] at h
    cases hbeq : k == k1 with
    | true =>
      rw [hbeq] at h
      have h2 : some v1 = some v := h
      obtain rfl : v1 = v := by injection h2
      obtain rfl : k = k1 := by simpa using hbeq
      exact List.mem_cons_self _ _
    | false =>
      rw [hbeq] at h
      have h2 : List.lookup k rest = some v := h
      exact List.mem_cons_of_mem _ (ih h2)

/-- C10: every row of the package-to-repositories file maps to a
nonempty repository list — splitting `all_repos` on commas yields at
least one element, and the empty string yields the one-element list
containing the empty string — so every known package has at least one
known repository. -/
theorem package_to_repos_values_nonempty (rows : List CsvRow) (k : String)
    (v : List String)
    (h : (parse_package_to_repos_file rows).lookup k = some v) :
    1 ≤ v.length ∧ pySplitComma "" = [""] :=
  ⟨parse_package_vals rows (k, v) (lookup_mem k v _ h), rfl⟩

/-- C10 witness: a row with an empty `all_repos` field stores the
one-element list containing the empty string. -/
theorem package_to_repos_values_nonempty_witness :
    1 ≤ ([""] : List String).length ∧ pySplitComma "" = [""] :=
  package_to_repos_values_nonempty [⟨"p", ""⟩] "p" [""] (by decide)

/-- The spec-side syntax predicate agrees with the anchored pattern
match of the source on the same character list. -/
lemma specValid_mk (cs : List Char) :
    specValidFullName (String.mk cs) = (matchFullName cs).isSome := by
  unfold specValidFullName matchFullName
  have hd : (String.mk cs).data = cs := rfl
  rw [hd]
  cases h : splitSlashAux [] cs with
  | nil => rfl
  | cons o rest =>
    cases rest with
    | nil => rfl
    | cons n rest2 =>
      cases rest2 with
      | nil =>
        by_cases hb :
          (!o.isEmpty && o.all isOwnerChar && !n.isEmpty && n.all isNameChar) = true
        · simp [hb]
        · simp only [Bool.not_eq_true] at hb
          simp [hb]
      | cons x xs => rfl

/-- C6 counterexample: `a/b` followed by a newline does not match the
claimed identifier syntax, yet `get_repo` performs the lookup instead
of raising, because Python `$` matches before a string-final newline. -/
theorem get_repo_trailing_newline_cex :
    specValidFullName "a/b\n" = false
    ∧ get_repo (fun _ _ => (none : Option Unit)) "a/b\n" = .ok none
    ∧ full_name_to_parts "a/b\n" = .ok ("a", "b") :=
  ⟨by decide, by rfl, by rfl⟩

/-- C6 as amended: `get_repo` raises the invalid-identifier error
exactly when the input, after discounting a single string-final
newline (which Python `$` tolerates), fails the
`[A-Za-z0-9-]+/[A-Za-z0-9_.-]+` syntax; and for a syntactically valid
name whose repository the host reports as non-existent it returns the
absent result rather than an error. -/
theorem get_repo_error_iff_invalid {α : Type}
    (host : String → String → Option α) (s : String) :
    ((∃ e, get_repo host s = .error e) ↔
      specValidFullName (String.mk (stripFinalNewline s.data)) = false)
    ∧ (∀ o n, full_name_to_parts s = .ok (o, n) → host o n = none →
        get_repo host s = .ok none) := by
  constructor
  · rw [specValid_mk]
    cases h : matchFullName (stripFinalNewline s.data) with
    | none =>
      have herr : get_repo host s =
          .error (s ++ " is not a valid name of a Github repository") := by
        unfold get_repo full_name_to_parts
        rw [h]
      constructor
      · intro _; simp
      · intro _; exact ⟨_, herr⟩
    | some pq =>
      obtain ⟨o, n⟩ := pq
      have hok : get_repo host s =
          .ok (host (String.mk o) (String.mk n)) := by
        unfold get_repo full_name_to_parts
        rw [h]
      constructor
      · rintro ⟨e, he⟩
        rw [hok] at he
        exact absurd he (by simp)
      · intro hf
        exact absurd hf (by simp)
  · intro o n h1 h2
    unfold get_repo
    rw [h1]
    show Except.ok (host o n) = Except.ok none
    rw [h2]

/-- C6 witness: a valid identifier that the host reports as
non-existent yields the absent result. -/
theorem get_repo_error_iff_invalid_witness :
    get_repo (fun _ _ => (none : Option Unit)) "python/cpython" = .ok none :=
  (get_repo_error_iff_invalid (fun _ _ => (none : Option Unit))
    "python/cpython").2 "python" "cpython" (by rfl) rfl

/-- C8 counterexample: a URL whose `page` query value is not an
integer makes `_parse_num_pages` raise (the `int` conversion fails)
instead of defaulting to page 1. -/
theorem parse_num_pages_malformed_cex :
    parse_num_pages "https://x.test/a?page=abc" = none
    ∧ parse_num_pages "https://x.test/a?page=abc" ≠ some 1 :=
  ⟨by decide, by decide⟩

/-- C8 as amended: for every URL string, a missing `page` parameter
(no recorded values) defaults to page 1, and otherwise the result is
exactly `int(...)` of the first recorded value — a page number when
that value parses as an integer, and a raised error (not a default of
1) when it does not. -/
theorem parse_num_pages_default_and_error (url : String) :
    (pageValues url = [] → parse_num_pages url = some 1)
    ∧ (∀ v rest, pageValues url = v :: rest →
        parse_num_pages url = pyInt v) := by
  constructor
  · intro h
    unfold parse_num_pages pageArgOf
    rw [h]
    rfl
  · intro v rest h
    unfold parse_num_pages pageArgOf
    rw [h]
    simp

/-- C8 witness: a URL without a `page` parameter yields 1, and a URL
with `page=7` yields the integer conversion of `7`. -/
theorem parse_num_pages_default_and_error_witness :
    parse_num_pages "https://x.test/a" = some 1
    ∧ parse_num_pages "https://x.test/a?page=7" = pyInt "7" :=
  ⟨(parse_num_pages_default_and_error "https://x.test/a").1 (by decide),
   (parse_num_pages_default_and_error "https://x.test/a?page=7").2 "7" []
     (by decide)⟩

/-! ## Decimal digits: round-trip facts for the pagination URL -/

/-- `digitToChar` always yields a decimal digit character. -/
lemma isDigit_digitToChar (d : Nat) : isDigitChar (digitToChar d) = true := by
  rcases d with _|_|_|_|_|_|_|_|_|d <;> rfl

/-- `digitVal` inverts `digitToChar` below ten. -/
lemma digitVal_digitToChar (d : Nat) (h : d < 10) :
    digitVal (digitToChar d) = d := by
  interval_cases d <;> decide

/-- Every character produced by `natDigitsAux` is a decimal digit. -/
lemma natDigitsAux_all_digit :
    ∀ (fuel n : Nat), ∀ c ∈ natDigitsAux fuel n, isDigitChar c = true := by
  intro fuel
  induction fuel with
  | zero => intro n c hc; simp [natDigitsAux] at hc
  | succ f ih =>
    intro n c hc
    cases n with
    | zero => simp [natDigitsAux] at hc
    | succ m =>
      rw [natDigitsAux] at hc
      rcases List.mem_append.mp hc with h1 | h1
      · exact ih _ c h1
      · simp only [List.mem_singleton] at h1
        rw [h1]
        exact isDigit_digitToChar _

/-- `natDigitsAux` of a positive number is nonempty. -/
lemma natDigitsAux_ne_nil (fuel n : Nat) (h1 : 1 ≤ n) (h2 : n ≤ fuel) :
    natDigitsAux fuel n ≠ [] := by
  cases fuel with
  | zero => omega
  | succ f =>
    cases n with
    | zero => omega
    | succ m => rw [natDigitsAux]; simp

/-- Folding the decimal-accumulation step over the digits of `n`
recovers `n` on top of the shifted accumulator. -/
lemma natDigitsAux_foldl :
    ∀ (fuel n acc : Nat), n ≤ fuel →
      (natDigitsAux fuel n).foldl (fun a c => a * 10 + digitVal c) acc =
        acc * 10 ^ (natDigitsAux fuel n).length + n := by
  intro fuel
  induction fuel with
  | zero =>
    intro n acc h
    obtain rfl : n = 0 := by omega
    simp [natDigitsAux]
  | succ f ih =>
    intro n acc h
    cases n with
    | zero => simp [natDigitsAux]
    | succ m =>
      rw [natDigitsAux, List.foldl_append]
      have hdiv : (m + 1) / 10 ≤ f := by
        have := Nat.div_lt_self (Nat.succ_pos m) (by norm_num : 1 < 10)
        omega
      rw [ih _ _ hdiv]
      simp only [List.foldl_cons, List.foldl_nil, List.length_append,
        List.length_cons, List.length_nil]
      rw [digitVal_digitToChar _ (Nat.mod_lt _ (by norm_num))]
      have hmod : 10 * ((m + 1) / 10) + (m + 1) % 10 = m + 1 :=
        Nat.div_add_mod (m + 1) 10
      set L := (natDigitsAux f ((m + 1) / 10)).length
      rw [pow_succ, ← mul_assoc]
      set q := (m + 1) / 10
      set r := (m + 1) % 10
      set B := acc * 10 ^ L
      omega

/-- All characters of `natRepr` are decimal digits. -/
lemma natRepr_all_digit (k : Nat) :
    ∀ c ∈ (natRepr k).data, isDigitChar c = true := by
  intro c hc
  unfold natRepr at hc
  by_cases hk : k = 0
  · rw [if_pos hk] at hc
    have : ("0" : String).data = ['0'] := rfl
    rw [this] at hc
    simp only [List.mem_singleton] at hc
    rw [hc]
    decide
  · rw [if_neg hk] at hc
    exact natDigitsAux_all_digit k k c hc

/-- The decimal representation of a positive number is nonempty. -/
lemma natRepr_ne_nil (k : Nat) (hk : 1 ≤ k) : (natRepr k).data ≠ [] := by
  have hd : (natRepr k).data = natDigitsAux k k := by
    unfold natRepr
    rw [if_neg (by omega : ¬ k = 0)]
  rw [hd]
  exact natDigitsAux_ne_nil k k hk (le_refl k)

/-- A decimal digit character differs from any character whose code
point is outside the digit range. -/
lemma digit_char_ne (c x : Char) (h : isDigitChar c = true)
    (hx : ¬ (48 ≤ x.toNat ∧ x.toNat ≤ 57)) : (c == x) = false := by
  have hn : 48 ≤ c.toNat ∧ c.toNat ≤ 57 := by simpa [isDigitChar] using h
  refine beq_eq_false_iff_ne.mpr ?_
  intro he
  rw [he] at hn
  exact hx hn

/-- Boolean-difference form of `digit_char_ne`. -/
lemma digit_char_bne (c x : Char) (h : isDigitChar c = true)
    (hx : ¬ (48 ≤ x.toNat ∧ x.toNat ≤ 57)) : (c != x) = true := by
  have hn : 48 ≤ c.toNat ∧ c.toNat ≤ 57 := by simpa [isDigitChar] using h
  simp only [bne_iff_ne, ne_eq]
  intro he
  rw [he] at hn
  exact hx hn

/-- Decimal digit characters are not Python whitespace. -/
lemma isDigit_not_pySpace (c : Char) (h : isDigitChar c = true) :
    isPySpace c = false := by
  have hn : 48 ≤ c.toNat ∧ c.toNat ≤ 57 := by simpa [isDigitChar] using h
  simp only [isPySpace, Bool.or_eq_false_iff, beq_eq_false_iff_ne, ne_eq]
  omega

/-- `dropWhile isPySpace` keeps an all-digit list intact. -/
lemma dropWhile_pySpace_digits (l : List Char)
    (h : ∀ c ∈ l, isDigitChar c = true) :
    l.dropWhile isPySpace = l := by
  cases l with
  | nil => rfl
  | cons c t =>
    rw [List.dropWhile_cons,
      isDigit_not_pySpace c (h c (List.mem_cons_self c t))]
    simp

/-- `str.strip` keeps an all-digit list intact. -/
lemma pyStrip_digits (l : List Char)
    (h : ∀ c ∈ l, isDigitChar c = true) : pyStrip l = l := by
  unfold pyStrip
  rw [dropWhile_pySpace_digits l h,
    dropWhile_pySpace_digits l.reverse
      (fun c hc => h c (List.mem_reverse.mp hc)),
    List.reverse_reverse]

/-- `pyIntDigits` on a nonempty all-digit list folds up its value. -/
lemma pyIntDigits_digits (l : List Char) (hne : l ≠ [])
    (h : ∀ c ∈ l, isDigitChar c = true) :
    pyIntDigits l = some (l.foldl (fun a c => a * 10 + digitVal c) 0) := by
  unfold pyIntDigits
  have h1 : l.isEmpty = false := by
    cases l with
    | nil => exact absurd rfl hne
    | cons c t => rfl
  have h2 : l.all isDigitChar = true := List.all_eq_true.mpr h
  rw [h1, h2]
  simp

/-- Python `int` inverts the decimal representation of a positive
natural number. -/
lemma pyInt_natRepr (n : Nat) (h : 1 ≤ n) :
    pyInt (natRepr n) = some (n : Int) := by
  have hn0 : n ≠ 0 := by omega
  have hds : (natRepr n).data = natDigitsAux n n := by
    unfold natRepr
    rw [if_neg hn0]
  have hall : ∀ c ∈ natDigitsAux n n, isDigitChar c = true :=
    natDigitsAux_all_digit n n
  have hne : natDigitsAux n n ≠ [] := natDigitsAux_ne_nil n n h (le_refl n)
  unfold pyInt
  rw [hds, pyStrip_digits _ hall]
  obtain ⟨c, t, hct⟩ : ∃ c t, natDigitsAux n n = c :: t := by
    cases hcc : natDigitsAux n n with
    | nil => exact absurd hcc hne
    | cons c t => exact ⟨c, t, rfl⟩
  have hc : isDigitChar c = true := by
    refine hall c ?_
    rw [hct]
    exact List.mem_cons_self c t
  rw [hct, pyIntOfStripped]
  rw [digit_char_ne c '+' hc (by decide), digit_char_ne c '-' hc (by decide)]
  simp only [Bool.false_eq_true, if_false]
  rw [← hct, pyIntDigits_digits _ hne hall]
  have hf := natDigitsAux_foldl n n 0 (le_refl n)
  simp only [Nat.zero_mul, Nat.zero_add] at hf
  simp [hf]

/-! ## Parsing the honest last-page URL -/

/-- A separator-free query string forms a single field. -/
lemma splitFieldsAux_no_sep :
    ∀ (l acc : List Char), (∀ c ∈ l, isQsSep c = false) →
      splitFieldsAux acc l = [acc.reverse ++ l] := by
  intro l
  induction l with
  | nil => intro acc h; simp [splitFieldsAux]
  | cons c t ih =>
    intro acc h
    rw [splitFieldsAux, h c (List.mem_cons_self c t)]
    simp only [Bool.false_eq_true, if_false]
    rw [ih (c :: acc) (fun d hd => h d (List.mem_cons_of_mem _ hd))]
    simp

/-- `unquote_plus` keeps an all-digit list intact. -/
lemma unquotePlusGo_digits :
    ∀ (fuel : Nat) (l : List Char), (∀ c ∈ l, isDigitChar c = true) →
      unquotePlusGo fuel l = l := by
  intro fuel
  induction fuel with
  | zero => intro l _; rfl
  | succ f ih =>
    intro l h
    cases l with
    | nil => rfl
    | cons c t =>
      have hc := h c (List.mem_cons_self c t)
      rw [unquotePlusGo.eq_def]
      simp only [digit_char_ne c '+' hc (by decide),
        digit_char_ne c '%' hc (by decide), Bool.false_eq_true, if_false]
      rw [ih t (fun d hd => h d (List.mem_cons_of_mem _ hd))]

/-- The query component of the honest last-page URL is its `page`
field. -/
lemma urlQuery_mkPageUrl (k : Nat) :
    urlQuery (mkPageUrl k) = ("page=").data ++ (natRepr k).data := by
  unfold mkPageUrl urlQuery takeBeforeChar dropThroughChar
  rw [String.data_append]
  have htake : List.takeWhile (fun c => c != '#')
      (("https://api.test/commits?page=").data ++ (natRepr k).data) =
      ("https://api.test/commits?page=").data ++ (natRepr k).data := by
    refine List.takeWhile_eq_self_iff.mpr ?_
    intro c hc
    rcases List.mem_append.mp hc with h1 | h1
    · exact (by decide :
        ∀ c ∈ ("https://api.test/commits?page=").data, (c != '#') = true) c h1
    · exact digit_char_bne c '#' (natRepr_all_digit k c h1) (by decide)
  rw [htake]
  have hsplit : ("https://api.test/commits?page=").data =
      ("https://api.test/commits").data ++ '?' :: ("page=").data := by rfl
  rw [hsplit, List.append_assoc]
  rw [List.dropWhile_append_of_pos (by decide :
    ∀ c ∈ ("https://api.test/commits").data, (c != '?') = true)]
  rw [List.cons_append, List.dropWhile_cons]
  simp

/-- The `page` values recorded for the honest last-page URL. -/
lemma pageValues_mkPageUrl (k : Nat) (hk : 1 ≤ k) :
    pageValues (mkPageUrl k) = [natRepr k] := by
  unfold pageValues parse_qsl
  rw [urlQuery_mkPageUrl k]
  have hnosep : ∀ c ∈ ("page=").data ++ (natRepr k).data, isQsSep c = false := by
    intro c hc
    rcases List.mem_append.mp hc with h1 | h1
    · exact (by decide : ∀ c ∈ ("page=").data, isQsSep c = false) c h1
    · have hd := natRepr_all_digit k c h1
      simp only [isQsSep, Bool.or_eq_false_iff]
      exact ⟨digit_char_ne c '&' hd (by decide),
        digit_char_ne c ';' hd (by decide)⟩
  rw [splitFieldsAux_no_sep _ [] hnosep]
  have hsplit : splitFirstEqAux [] (List.reverse [] ++
      (("page=").data ++ (natRepr k).data)) =
      some (("page").data, (natRepr k).data) := rfl
  have hvne : ((natRepr k).data).isEmpty = false := by
    cases hcc : (natRepr k).data with
    | nil => exact absurd hcc (natRepr_ne_nil k hk)
    | cons c t => rfl
  have hu2 : unquotePlus ((natRepr k).data) = (natRepr k).data := by
    unfold unquotePlus
    exact unquotePlusGo_digits _ _ (natRepr_all_digit k)
  have hkey : (String.mk (unquotePlus (("page").data)) == "page") = true := rfl
  have heta : String.mk ((natRepr k).data) = natRepr k := rfl
  simp only [List.filterMap_cons, List.filterMap_nil, hsplit, hvne, hu2,
    hkey, heta, Bool.false_eq_true, if_false, if_true]

/-- `_parse_num_pages` recovers the page number of the honest
last-page URL. -/
lemma parse_num_pages_mkPageUrl (k : Nat) (hk : 1 ≤ k) :
    parse_num_pages (mkPageUrl k) = some (k : Int) := by
  unfold parse_num_pages pageArgOf
  rw [pageValues_mkPageUrl k hk]
  simp only [List.isEmpty_cons, Bool.false_eq_true, if_false,
    List.length_cons, List.length_nil]
  norm_num
  exact pyInt_natRepr k hk

/-- The two computation branches of `count_commits` over an arbitrary
paginated listing: no `last` link means the single page is counted
with one request; a `last` link parsing to a page number other than 1
means the last page is fetched directly and the paging formula is
applied, with two requests. -/
lemma count_commits_branches (env : PaginatedEnv) :
    (env.firstPage.lastLink = none →
      count_commits env = (some ((env.firstPage.items.length : Int)), 1))
    ∧ (∀ u pages, env.firstPage.lastLink = some u →
        parse_num_pages u = some pages → pages ≠ 1 →
        count_commits env =
          (some ((env.perPage : Int) * (pages - 1) +
            ((env.fetchUrl u).items.length : Int)), 2)) := by
  constructor
  · intro h
    unfold count_commits
    rw [h]
    have hparse : parse_num_pages "" = some 1 := rfl
    simp only [hparse]
    simp
  · intro u pages h hp1 hne
    unfold count_commits
    rw [h]
    simp only [hp1]
    have hbeq : (pages == 1) = false := beq_eq_false_iff_ne.mpr hne
    simp only [hbeq, Bool.false_eq_true, if_false]

/-- `ceilPages` is at least one. -/
lemma ceilPages_pos (n p : Nat) (hp : 0 < p) : 1 ≤ ceilPages n p := by
  unfold ceilPages
  split
  · omega
  · rw [Nat.le_div_iff_mul_le hp]
    omega

/-- With more than one page, the paging formula over the honest
listing recovers the exact total. -/
lemma honest_arith (n p : Nat) (hp : 0 < p) (hq : 1 < ceilPages n p) :
    (p : Int) * ((ceilPages n p : Int) - 1) +
      (pageItemCount n p (ceilPages n p) : Int) = (n : Int) := by
  have hn0 : n ≠ 0 := by
    intro h
    rw [h] at hq
    simp [ceilPages] at hq
  have hqe : ceilPages n p = (n + p - 1) / p := by
    unfold ceilPages
    rw [if_neg hn0]
  set q := ceilPages n p with hqdef
  have hmod := Nat.div_add_mod (n + p - 1) p
  rw [← hqe] at hmod
  have hr : (n + p - 1) % p < p := Nat.mod_lt _ hp
  set r := (n + p - 1) % p
  have hpq : p * (q - 1) + p = p * q := by
    have hq1 : q - 1 + 1 = q := by omega
    calc p * (q - 1) + p = p * ((q - 1) + 1) := by ring
    _ = p * q := by rw [hq1]
  set A := p * (q - 1)
  set B := p * q
  have hb1 : A < n := by omega
  have hb2 : n ≤ B := by omega
  have hitem : pageItemCount n p q = n - A := by
    unfold pageItemCount
    have : n - A ≤ p := by omega
    exact min_eq_right this
  rw [hitem]
  have hcast1 : ((n - A : Nat) : Int) = (n : Int) - (A : Int) :=
    Nat.cast_sub (le_of_lt hb1)
  have hcast2 : ((q : Int) - 1) = ((q - 1 : Nat) : Int) :=
    (Nat.cast_sub (by omega : 1 ≤ q)).symm
  rw [hcast1, hcast2]
  have hcast3 : (p : Int) * ((q - 1 : Nat) : Int) = (A : Int) := by
    rw [← Nat.cast_mul]
  rw [hcast3]
  ring

/-- With a single page, the first page of the honest listing holds
all items. -/
lemma honest_single (n p : Nat) (hp : 0 < p) (hq : ¬ 1 < ceilPages n p) :
    pageItemCount n p 1 = n := by
  unfold pageItemCount
  have hcases : n ≤ p := by
    by_cases hn0 : n = 0
    · omega
    · have hqe : ceilPages n p = (n + p - 1) / p := by
        unfold ceilPages
        rw [if_neg hn0]
      have hq1 : ceilPages n p ≤ 1 := by omega
      rw [hqe] at hq1
      have := Nat.div_add_mod (n + p - 1) p
      have hr : (n + p - 1) % p < p := Nat.mod_lt _ hp
      have hql : (n + p - 1) / p ≤ 1 := hq1
      -- p * ((n+p-1)/p) ≤ p, so n + p - 1 < 2p
      have hle : p * ((n + p - 1) / p) ≤ p * 1 :=
        Nat.mul_le_mul_left p hql
      omega
  have h0 : n - p * (1 - 1) = n := by norm_num
  rw [h0]
  exact min_eq_right hcases

/-- C2: `count_commits` returns the exact number of commits of an
honestly paginated listing with at most 2 page requests: a first page
with no `last` link is counted directly (one request); otherwise the
page number of the `last` link is parsed, the last page fetched
directly, and `page_size × (num_pages − 1) + items_on_last_page`
computed (two requests). The final conjunct states the branch
formulas over an arbitrary paginated environment. -/
theorem count_commits_exact_two_requests (n p : Nat) (hp : 0 < p) :
    (count_commits (honestEnv n p)).1 = some (n : Int)
    ∧ (count_commits (honestEnv n p)).2 ≤ 2
    ∧ (∀ env : PaginatedEnv,
        (env.firstPage.lastLink = none →
          count_commits env = (some ((env.firstPage.items.length : Int)), 1))
        ∧ (∀ u pages, env.firstPage.lastLink = some u →
            parse_num_pages u = some pages → pages ≠ 1 →
            count_commits env =
              (some ((env.perPage : Int) * (pages - 1) +
                ((env.fetchUrl u).items.length : Int)), 2))) := by
  refine ?_
  have hq1 := ceilPages_pos n p hp
  by_cases hq : 1 < ceilPages n p
  · -- several pages: the last link is present and fetched directly
    have hlast : (honestEnv n p).firstPage.lastLink =
        some (mkPageUrl (ceilPages n p)) := by
      simp [honestEnv, hq]
    have hparse := parse_num_pages_mkPageUrl (ceilPages n p) (by omega)
    have hne1 : ((ceilPages n p : Nat) : Int) ≠ 1 := by
      have h2 : 2 ≤ ceilPages n p := hq
      omega
    have hcount := (count_commits_branches (honestEnv n p)).2
      (mkPageUrl (ceilPages n p)) _ hlast hparse hne1
    have hfetch : (honestEnv n p).fetchUrl (mkPageUrl (ceilPages n p)) =
        honestPage n p (ceilPages n p) := by
      show (match parse_num_pages (mkPageUrl (ceilPages n p)) with
        | some k => honestPage n p k.toNat
        | none => honestPage n p 1) = honestPage n p (ceilPages n p)
      rw [hparse]
      simp
    rw [hcount, hfetch]
    have hitems : (honestPage n p (ceilPages n p)).items.length =
        pageItemCount n p (ceilPages n p) := by
      simp [honestPage]
    have hper : (honestEnv n p).perPage = p := rfl
    rw [hitems, hper]
    refine ⟨?_, by norm_num, fun env => count_commits_branches env⟩
    have := honest_arith n p hp hq
    simp only [Option.some.injEq]
    exact this
  · -- a single page: no last link, the first page holds everything
    have hlast : (honestEnv n p).firstPage.lastLink = none := by
      simp [honestEnv, hq]
    have hcount := (count_commits_branches (honestEnv n p)).1 hlast
    rw [hcount]
    have hitems : (honestEnv n p).firstPage.items.length =
        pageItemCount n p 1 := by
      simp [honestEnv]
    rw [hitems, honest_single n p hp hq]
    exact ⟨rfl, by norm_num, fun env => count_commits_branches env⟩

/-- C2 witness: 5 items at page size 2 are counted exactly with two
requests, and the branch formulas hold at that instance. -/
theorem count_commits_exact_two_requests_witness :
    (count_commits (honestEnv 5 2)).1 = some (5 : Int)
    ∧ (count_commits (honestEnv 5 2)).2 ≤ 2
    ∧ (∀ env : PaginatedEnv,
        (env.firstPage.lastLink = none →
          count_commits env = (some ((env.firstPage.items.length : Int)), 1))
        ∧ (∀ u pages, env.firstPage.lastLink = some u →
            parse_num_pages u = some pages → pages ≠ 1 →
            count_commits env =
              (some ((env.perPage : Int) * (pages - 1) +
                ((env.fetchUrl u).items.length : Int)), 2))) :=
  count_commits_exact_two_requests 5 2 (by decide)

end AppSearch
